import Mathlib

/-!
Verification of the zentro binary prediction-market program: a shallow
embedding of the constant-product liquidity pool
(`state/liquidity_pool.rs`), the market lifecycle (`state/market.rs`),
the pari-mutuel settlement entry points (`lib.rs`) and the fixed-point
pricing helpers (`utils/pricing.rs`), together with theorems about the
algebraic and lifecycle properties of these operations.

All machine integers are modelled as `Nat` with explicit bound checks
against `2 ^ 64`: a Rust `checked_op` that would return `None` is an
explicit branch to a `MathOverflow`-style error, a wrapping cast is an
explicit `% 2 ^ 64`, and a saturating operation is an explicit `min`
against `2 ^ 64 - 1`.  Stateful methods on `&mut self` are modelled as
functions returning a pair of the Rust `Result` and the record as left
by the call, so that the state at an early-error exit is visible.
-/

namespace Zentro

/-- Number of values of a Rust `u64`; all pool and market quantities are
64-bit unsigned integers. -/
def U64 : Nat := 2 ^ 64

/-- Error type as referenced by `state/liquidity_pool.rs` (the variants
used there; the shared `error.rs` enum does not actually declare them,
an inconsistency the program itself contains). -/
inductive ZentroError where
  | PoolInactive
  | InvalidAmount
  | InsufficientLiquidity
  | MathOverflow
  | InvalidFeeRate
deriving DecidableEq

/-- State of a `LiquidityPool` record (`state/liquidity_pool.rs`),
restricted to the fields that the pool operations read or write; the
pubkey, bump and timestamp fields are never touched by the modelled
operations and are omitted. -/
structure LiquidityPool where
  total_liquidity : Nat
  yes_reserves : Nat
  no_reserves : Nat
  fee_rate : Nat
  accumulated_fees : Nat
  is_active : Bool
deriving DecidableEq

/-- Pool part of `LiquidityPool::initialize`: validates `fee_rate <= 1000`
and zeroes all accounting fields. -/
def LiquidityPool.init (fee_rate : Nat) : Except ZentroError LiquidityPool :=
  if 1000 < fee_rate then .error .InvalidFeeRate
  else .ok { total_liquidity := 0, yes_reserves := 0, no_reserves := 0,
             fee_rate := fee_rate, accumulated_fees := 0, is_active := true }

/-- Liquidity tokens minted by `add_liquidity` (the `let liquidity_tokens`
block of the source): the full amount for the first deposit or when both
reserves are zero, otherwise proportional to the share of total
reserves. -/
def LiquidityPool.liquidityTokensFor (p : LiquidityPool) (amount : Nat) : Nat :=
  if p.total_liquidity = 0 then amount
  else if p.yes_reserves + p.no_reserves = 0 then amount
  else amount * p.total_liquidity / (p.yes_reserves + p.no_reserves)

/-- Model of `LiquidityPool::add_liquidity`.  Mirrors the source control
flow: validation, liquidity-token computation (all checked), then the
three field writes in source order (`yes_reserves`, `no_reserves`,
`total_liquidity`), each guarded by its own `checked_add`; an overflow
detected at a later write leaves the earlier writes applied, exactly as
the Rust `&mut self` method does. -/
def LiquidityPool.addLiquidity (p : LiquidityPool) (amount : Nat) :
    Except ZentroError Nat × LiquidityPool :=
  if p.is_active = false then (.error .PoolInactive, p) else
  if amount = 0 then (.error .InvalidAmount, p) else
  if p.total_liquidity ≠ 0 ∧ U64 ≤ p.yes_reserves + p.no_reserves then
    (.error .MathOverflow, p) else
  if p.total_liquidity ≠ 0 ∧ p.yes_reserves + p.no_reserves ≠ 0 ∧
      U64 ≤ amount * p.total_liquidity then
    (.error .MathOverflow, p) else
  if U64 ≤ p.yes_reserves + amount / 2 then (.error .MathOverflow, p) else
  if U64 ≤ p.no_reserves + amount / 2 then
    (.error .MathOverflow, { p with yes_reserves := p.yes_reserves + amount / 2 }) else
  if U64 ≤ p.total_liquidity + p.liquidityTokensFor amount then
    (.error .MathOverflow, { p with yes_reserves := p.yes_reserves + amount / 2,
                                    no_reserves := p.no_reserves + amount / 2 }) else
  (.ok (p.liquidityTokensFor amount),
   { p with yes_reserves := p.yes_reserves + amount / 2,
            no_reserves := p.no_reserves + amount / 2,
            total_liquidity := p.total_liquidity + p.liquidityTokensFor amount })

/-- Model of `LiquidityPool::remove_liquidity`: proportional floor-divided
redemption, debiting both reserves and the share count. -/
def LiquidityPool.removeLiquidity (p : LiquidityPool) (liquidity_tokens : Nat) :
    Except ZentroError (Nat × Nat) × LiquidityPool :=
  if p.is_active = false then (.error .PoolInactive, p) else
  if liquidity_tokens = 0 then (.error .InvalidAmount, p) else
  if p.total_liquidity < liquidity_tokens then (.error .InsufficientLiquidity, p) else
  if U64 ≤ p.yes_reserves * liquidity_tokens then (.error .MathOverflow, p) else
  if U64 ≤ p.no_reserves * liquidity_tokens then (.error .MathOverflow, p) else
  let yes_amount := p.yes_reserves * liquidity_tokens / p.total_liquidity
  let no_amount := p.no_reserves * liquidity_tokens / p.total_liquidity
  (.ok (yes_amount, no_amount),
   { p with yes_reserves := p.yes_reserves - yes_amount,
            no_reserves := p.no_reserves - no_amount,
            total_liquidity := p.total_liquidity - liquidity_tokens })

/-- Input-side reserve selected by the swap direction, as destructured at
the top of `calculate_swap_output`. -/
def LiquidityPool.inputReserve (p : LiquidityPool) (is_yes_to_no : Bool) : Nat :=
  if is_yes_to_no then p.yes_reserves else p.no_reserves

/-- Output-side reserve selected by the swap direction. -/
def LiquidityPool.outputReserve (p : LiquidityPool) (is_yes_to_no : Bool) : Nat :=
  if is_yes_to_no then p.no_reserves else p.yes_reserves

/-- Core arithmetic of `calculate_swap_output` after direction
destructuring: fee on input, constant-product division, strict
no-full-drain check.  Each guard mirrors one checked operation of the
source in source order. -/
def swapOutput (input_reserve output_reserve fee_rate input_amount : Nat) :
    Except ZentroError Nat :=
  if ¬ (0 < input_reserve ∧ 0 < output_reserve) then .error .InsufficientLiquidity else
  if U64 ≤ input_amount * fee_rate then .error .MathOverflow else
  if input_amount < input_amount * fee_rate / 10000 then .error .MathOverflow else
  if U64 ≤ input_reserve + (input_amount - input_amount * fee_rate / 10000) then
    .error .MathOverflow else
  if U64 ≤ input_reserve * output_reserve then .error .MathOverflow else
  if input_reserve + (input_amount - input_amount * fee_rate / 10000) = 0 then
    .error .MathOverflow else
  if output_reserve <
      input_reserve * output_reserve /
        (input_reserve + (input_amount - input_amount * fee_rate / 10000)) then
    .error .MathOverflow else
  if ¬ (output_reserve -
        input_reserve * output_reserve /
          (input_reserve + (input_amount - input_amount * fee_rate / 10000)) <
        output_reserve) then
    .error .InsufficientLiquidity else
  .ok (output_reserve -
       input_reserve * output_reserve /
         (input_reserve + (input_amount - input_amount * fee_rate / 10000)))

/-- Model of `LiquidityPool::calculate_swap_output` (pure, no mutation). -/
def LiquidityPool.calculateSwapOutput (p : LiquidityPool) (input_amount : Nat)
    (is_yes_to_no : Bool) : Except ZentroError Nat :=
  if p.is_active = false then .error .PoolInactive else
  if input_amount = 0 then .error .InvalidAmount else
  swapOutput (p.inputReserve is_yes_to_no) (p.outputReserve is_yes_to_no)
    p.fee_rate input_amount

/-- Model of `LiquidityPool::execute_swap`: recomputes the output via
`calculateSwapOutput`, recomputes the fee, then performs the three field
writes in source order (input-side credit, output-side debit, fee
accrual), each guarded by its checked operation; a late overflow leaves
the earlier writes applied, as the Rust `&mut self` method does. -/
def LiquidityPool.executeSwap (p : LiquidityPool) (input_amount : Nat)
    (is_yes_to_no : Bool) : Except ZentroError Nat × LiquidityPool :=
  match p.calculateSwapOutput input_amount is_yes_to_no with
  | .error e => (.error e, p)
  | .ok output_amount =>
    if U64 ≤ input_amount * p.fee_rate then (.error .MathOverflow, p) else
    if input_amount < input_amount * p.fee_rate / 10000 then (.error .MathOverflow, p) else
    let fee_amount := input_amount * p.fee_rate / 10000
    let input_after_fee := input_amount - fee_amount
    if is_yes_to_no then
      if U64 ≤ p.yes_reserves + input_after_fee then (.error .MathOverflow, p) else
      if p.no_reserves < output_amount then
        (.error .MathOverflow,
         { p with yes_reserves := p.yes_reserves + input_after_fee }) else
      if U64 ≤ p.accumulated_fees + fee_amount then
        (.error .MathOverflow,
         { p with yes_reserves := p.yes_reserves + input_after_fee,
                  no_reserves := p.no_reserves - output_amount }) else
      (.ok output_amount,
       { p with yes_reserves := p.yes_reserves + input_after_fee,
                no_reserves := p.no_reserves - output_amount,
                accumulated_fees := p.accumulated_fees + fee_amount })
    else
      if U64 ≤ p.no_reserves + input_after_fee then (.error .MathOverflow, p) else
      if p.yes_reserves < output_amount then
        (.error .MathOverflow,
         { p with no_reserves := p.no_reserves + input_after_fee }) else
      if U64 ≤ p.accumulated_fees + fee_amount then
        (.error .MathOverflow,
         { p with no_reserves := p.no_reserves + input_after_fee,
                  yes_reserves := p.yes_reserves - output_amount }) else
      (.ok output_amount,
       { p with no_reserves := p.no_reserves + input_after_fee,
                yes_reserves := p.yes_reserves - output_amount,
                accumulated_fees := p.accumulated_fees + fee_amount })

/-- Model of `LiquidityPool::get_price`: basis-point price of one side,
floor-divided by the total reserves. -/
def LiquidityPool.getPrice (p : LiquidityPool) (is_yes_price : Bool) :
    Except ZentroError Nat :=
  if ¬ (0 < p.yes_reserves ∧ 0 < p.no_reserves) then .error .InsufficientLiquidity else
  if U64 ≤ p.yes_reserves + p.no_reserves then .error .MathOverflow else
  if is_yes_price then
    if U64 ≤ p.yes_reserves * 10000 then .error .MathOverflow else
    .ok (p.yes_reserves * 10000 / (p.yes_reserves + p.no_reserves))
  else
    if U64 ≤ p.no_reserves * 10000 then .error .MathOverflow else
    .ok (p.no_reserves * 10000 / (p.yes_reserves + p.no_reserves))

/-- Error type of `state/market.rs` (the variants the modelled
operations can produce). -/
inductive MarketError where
  | MarketResolved
  | MarketExpired
  | BetTooSmall
  | BetTooLarge
  | Overflow
  | AlreadyResolved
  | MarketNotExpired
deriving DecidableEq

/-- State of a `Market` record (`state/market.rs`), restricted to the
fields the modelled operations read or write; the string, pubkey, fee
and bump fields are never touched by `place_bet`/`resolve` and are
omitted. -/
structure Market where
  end_time : Int
  resolved : Bool
  resolution : Option Bool
  total_yes_amount : Nat
  total_no_amount : Nat
  min_bet_amount : Nat
  max_bet_amount : Nat
  resolved_at : Option Int
deriving DecidableEq

/-- Model of `Market::place_bet`: lifecycle and range validation, then one
checked accumulation on the chosen side.  The clock read is the explicit
`now` argument. -/
def Market.placeBet (m : Market) (now : Int) (amount : Nat) (is_yes : Bool) :
    Except MarketError Unit × Market :=
  if m.resolved then (.error .MarketResolved, m) else
  if ¬ (now < m.end_time) then (.error .MarketExpired, m) else
  if amount < m.min_bet_amount then (.error .BetTooSmall, m) else
  if m.max_bet_amount < amount then (.error .BetTooLarge, m) else
  if is_yes then
    if U64 ≤ m.total_yes_amount + amount then (.error .Overflow, m) else
    (.ok (), { m with total_yes_amount := m.total_yes_amount + amount })
  else
    if U64 ≤ m.total_no_amount + amount then (.error .Overflow, m) else
    (.ok (), { m with total_no_amount := m.total_no_amount + amount })

/-- Model of `Market::resolve`: one-shot, only after `end_time`. -/
def Market.resolve (m : Market) (now : Int) (resolution : Bool) :
    Except MarketError Unit × Market :=
  if m.resolved then (.error .AlreadyResolved, m) else
  if now < m.end_time then (.error .MarketNotExpired, m) else
  (.ok (),
   { m with resolved := true, resolution := some resolution, resolved_at := some now })

/-- One mutating operation of the `Market` state machine
(`place_bet` or `resolve`, the only operations that write a `Market`
record after initialization). -/
inductive MarketOp where
  | bet (now : Int) (amount : Nat) (is_yes : Bool)
  | res (now : Int) (outcome : Bool)

/-- Resulting record state of one `Market` operation (the record as left
by the call, whether it succeeded or failed). -/
def Market.step (m : Market) : MarketOp → Market
  | .bet now amount is_yes => (m.placeBet now amount is_yes).2
  | .res now outcome => (m.resolve now outcome).2

/-- Record state after a sequence of `Market` operations. -/
def Market.run (m : Market) : List MarketOp → Market
  | [] => m
  | op :: ops => (m.step op).run ops

namespace Lib

/-- Error enum of `lib.rs` (`ErrorCode`), restricted to the variants the
modelled entry points can produce; the two `Panic` variants stand for
Rust panics (`Option::unwrap` on `None`, integer division by zero),
which abort the transaction. -/
inductive ErrorCode where
  | MarketResolved
  | MarketExpired
  | InvalidAmount
  | MarketAlreadyResolved
  | UnauthorizedOracle
  | MarketNotExpired
  | MarketNotResolved
  | UnauthorizedUser
  | AlreadyClaimed
  | NoWinnings
  | PanicOutcomeNone
  | PanicDivZero
deriving DecidableEq

/-- State of the pari-mutuel `Market` account declared in `lib.rs`
(distinct from the `state/market.rs` struct), restricted to the fields
the modelled entry points read or write; pubkeys are modelled as `Nat`
identifiers. -/
structure Market where
  end_time : Int
  oracle : Nat
  total_yes_tokens : Nat
  total_no_tokens : Nat
  resolved : Bool
  outcome : Option Bool
deriving DecidableEq

/-- State of a `UserPosition` account (`lib.rs`). -/
structure UserPosition where
  user : Nat
  yes_tokens : Nat
  no_tokens : Nat
  claimed : Bool
deriving DecidableEq

/-- Model of the `claim_winnings` entry point of `lib.rs`, acting on the
market (read-only), the caller identity, and the user position.  The
payout multiplication is performed at 128-bit width (both factors are
below `2 ^ 64`, so the `u128` product never overflows); `total_pool` is
an unchecked `u64` addition (wrapping, modelled as `% U64`) and the
final narrowing cast is `% U64`.  The external token transfer is out of
scope and treated as succeeding; on success the position is marked
claimed. -/
def claimWinnings (m : Market) (caller : Nat) (pos : UserPosition) :
    Except ErrorCode Nat × UserPosition :=
  if m.resolved = false then (.error .MarketNotResolved, pos) else
  if pos.user ≠ caller then (.error .UnauthorizedUser, pos) else
  if pos.claimed then (.error .AlreadyClaimed, pos) else
  match m.outcome with
  | none => (.error .PanicOutcomeNone, pos)
  | some outcome =>
    let winning_tokens := if outcome then pos.yes_tokens else pos.no_tokens
    if winning_tokens = 0 then (.error .NoWinnings, pos) else
    let total_winning_pool := if outcome then m.total_yes_tokens else m.total_no_tokens
    let total_pool := (m.total_yes_tokens + m.total_no_tokens) % U64
    if total_winning_pool = 0 then (.error .PanicDivZero, pos) else
    (.ok ((winning_tokens * total_pool / total_winning_pool) % U64),
     { pos with claimed := true })

/-- Resulting position state of one `claim_winnings` call by `caller`. -/
def claimStep (m : Market) (pos : UserPosition) (caller : Nat) : UserPosition :=
  (claimWinnings m caller pos).2

/-- Position state after a sequence of `claim_winnings` calls by the
given callers. -/
def claimRun (m : Market) (pos : UserPosition) : List Nat → UserPosition
  | [] => pos
  | c :: cs => claimRun m (claimStep m pos c) cs

end Lib

/-- Saturating `u64` multiplication (`saturating_mul`). -/
def sat64_mul (a b : Nat) : Nat := min (a * b) (U64 - 1)

/-- Saturating `u64` addition (`saturating_add`). -/
def sat64_add (a b : Nat) : Nat := min (a + b) (U64 - 1)

/-- Saturating `u64` subtraction (`saturating_sub`); truncated `Nat`
subtraction is exactly the saturating one. -/
def sat64_sub (a b : Nat) : Nat := a - b

/-- Model of `utils/pricing.rs::calculate_slippage`: quadratic in the
order-size/liquidity quotient, at 128-bit width narrowed to `u64`
(`% U64`), capped at 1000 basis points; 500 bp default at zero
liquidity. -/
def calculate_slippage (order_size total_liquidity : Nat) : Nat :=
  if total_liquidity = 0 then 500
  else
    min (sat64_mul ((order_size * 10000 / total_liquidity) % U64)
                   ((order_size * 10000 / total_liquidity) % U64) / 10000)
        1000

/-- Model of `utils/pricing.rs::calculate_buy_price` with the source's
`let` bindings inlined: `base_cost = price * shares / 10000` (saturating),
`slippage_cost = base_cost * slippage / 10000`, and the returned cost is
`base_cost + slippage_cost` on the yes side or
`inverse_cost + slippage_cost` on the no side, where
`inverse_cost = (10000 - price) * shares / 10000`.  Note the surcharge is
computed from `base_cost`, which is always the yes-side cost. -/
def calculate_buy_price (current_price shares_to_buy total_liquidity : Nat)
    (is_yes_side : Bool) : Nat :=
  if shares_to_buy = 0 then 0
  else
    if is_yes_side then
      sat64_add (sat64_mul current_price shares_to_buy / 10000)
        (sat64_mul (sat64_mul current_price shares_to_buy / 10000)
          (calculate_slippage shares_to_buy total_liquidity) / 10000)
    else
      sat64_add (sat64_mul (sat64_sub 10000 current_price) shares_to_buy / 10000)
        (sat64_mul (sat64_mul current_price shares_to_buy / 10000)
          (calculate_slippage shares_to_buy total_liquidity) / 10000)

/-- Pool state right after `add_liquidity(100000)` on a fresh pool with
`fee_rate = 100`, used by the scenario theorems. -/
def poolA : LiquidityPool :=
  { total_liquidity := 100000, yes_reserves := 50000, no_reserves := 50000,
    fee_rate := 100, accumulated_fees := 0, is_active := true }

/-- Pool state after `execute_swap(1000, yes_to_no)` on `poolA`. -/
def poolB : LiquidityPool :=
  { total_liquidity := 100000, yes_reserves := 50990, no_reserves := 49029,
    fee_rate := 100, accumulated_fees := 10, is_active := true }

/-- Active pool with an extreme `no_reserves`, witnessing partial mutation
of `add_liquidity` on a late overflow. -/
def poolEdge : LiquidityPool :=
  { total_liquidity := 1, yes_reserves := 0, no_reserves := U64 - 1,
    fee_rate := 0, accumulated_fees := 0, is_active := true }

/-- Small imbalanced pool with reserves 1 and 2, witnessing that the two
prices sum to 9999, not 10000. -/
def poolOdd : LiquidityPool :=
  { total_liquidity := 3, yes_reserves := 1, no_reserves := 2,
    fee_rate := 0, accumulated_fees := 0, is_active := true }

/-- Imbalanced active pool used by the add-liquidity rebalancing witness. -/
def poolSkew : LiquidityPool :=
  { total_liquidity := 100, yes_reserves := 10, no_reserves := 30,
    fee_rate := 0, accumulated_fees := 0, is_active := true }

/-- Open market with `min_bet = 10`, `max_bet = 1000`, used by the betting
scenario. -/
def marketOpen : Market :=
  { end_time := 100, resolved := false, resolution := none,
    total_yes_amount := 0, total_no_amount := 0,
    min_bet_amount := 10, max_bet_amount := 1000, resolved_at := none }

/-- Record produced by resolving `marketOpen` at time 100 with outcome
`true`. -/
def marketDone : Market :=
  { end_time := 100, resolved := true, resolution := some true,
    total_yes_amount := 0, total_no_amount := 0,
    min_bet_amount := 10, max_bet_amount := 1000, resolved_at := some 100 }

/-- Resolved pari-mutuel market used by the settlement witness. -/
def lmarket : Lib.Market :=
  { end_time := 0, oracle := 1, total_yes_tokens := 100, total_no_tokens := 50,
    resolved := true, outcome := some true }

/-- Unclaimed winning position of user 7 on `lmarket`. -/
def lposition : Lib.UserPosition :=
  { user := 7, yes_tokens := 30, no_tokens := 0, claimed := false }

end Zentro

deriving instance DecidableEq for Except

namespace Zentro

/-- Floor division is monotone under cross multiplication: if
`a * d ≤ c * b` then `a / b ≤ c / d`. -/
theorem div_le_div_cross {a b c d : Nat} (hb : 0 < b) (hd : 0 < d)
    (h : a * d ≤ c * b) : a / b ≤ c / d := by
  rw [Nat.le_div_iff_mul_le hd]
  have h1 : a / b * b ≤ a := Nat.div_mul_le_self a b
  have h2 : a / b * d * b ≤ c * b := by
    calc a / b * d * b = a / b * b * d := by ring
    _ ≤ a * d := Nat.mul_le_mul_right d h1
    _ ≤ c * b := h
  exact Nat.le_of_mul_le_mul_right h2 hb

/-- Success characterization of `swapOutput`: which checks passed and
which value was returned. -/
theorem swapOutput_ok {ir outr fr amt out : Nat}
    (h : swapOutput ir outr fr amt = Except.ok out) :
    0 < ir ∧ 0 < outr ∧ amt * fr < U64 ∧ amt * fr / 10000 ≤ amt ∧
    ir + (amt - amt * fr / 10000) < U64 ∧ ir * outr < U64 ∧
    out = outr - ir * outr / (ir + (amt - amt * fr / 10000)) ∧ out < outr := by
  unfold swapOutput at h
  split_ifs at h with h1 h2 h3 h4 h5 h6 h7 h8
  injection h with h0
  exact ⟨h1.1, h1.2, not_le.mp h2, not_lt.mp h3, not_le.mp h4, not_le.mp h5,
    h0.symm, h0 ▸ h8⟩

/-- Success characterization of `calculateSwapOutput` in terms of
`swapOutput` on the direction-selected reserves. -/
theorem calcSwap_ok {p : LiquidityPool} {amt out : Nat} {dir : Bool}
    (h : p.calculateSwapOutput amt dir = .ok out) :
    p.is_active = true ∧ 0 < amt ∧
    swapOutput (p.inputReserve dir) (p.outputReserve dir) p.fee_rate amt = .ok out := by
  unfold LiquidityPool.calculateSwapOutput at h
  split_ifs at h with h1 h2
  exact ⟨by revert h1; cases p.is_active <;> simp, Nat.pos_of_ne_zero h2, h⟩

/-- Success characterization of `executeSwap`: the preview succeeded with
the same output, the fee accrual did not overflow, and the resulting
state credits the input side with the input net of fee, debits the
output side by the output, and accrues the fee. -/
theorem executeSwap_ok {p p' : LiquidityPool} {amt out : Nat} {dir : Bool}
    (h : p.executeSwap amt dir = (.ok out, p')) :
    p.calculateSwapOutput amt dir = .ok out ∧
    p.accumulated_fees + amt * p.fee_rate / 10000 < U64 ∧
    p' = (if dir then
            { p with yes_reserves := p.yes_reserves + (amt - amt * p.fee_rate / 10000),
                     no_reserves := p.no_reserves - out,
                     accumulated_fees := p.accumulated_fees + amt * p.fee_rate / 10000 }
          else
            { p with no_reserves := p.no_reserves + (amt - amt * p.fee_rate / 10000),
                     yes_reserves := p.yes_reserves - out,
                     accumulated_fees := p.accumulated_fees + amt * p.fee_rate / 10000 }) := by
  unfold LiquidityPool.executeSwap at h
  cases hc : p.calculateSwapOutput amt dir with
  | error e =>
    rw [hc] at h
    exact Except.noConfusion (congrArg Prod.fst h)
  | ok o =>
    rw [hc] at h
    dsimp only at h
    split_ifs at h with h1 h2 h3 h4 h5 h6 h7 h8 h9
    all_goals try exact Except.noConfusion (congrArg Prod.fst h)
    · have ho : o = out := by injection congrArg Prod.fst h
      subst ho
      refine ⟨rfl, not_le.mp h6, ?_⟩
      rw [if_pos h3]
      exact (congrArg Prod.snd h).symm
    · have ho : o = out := by injection congrArg Prod.fst h
      subst ho
      refine ⟨rfl, not_le.mp h9, ?_⟩
      rw [if_neg (by simp [h3])]
      exact (congrArg Prod.snd h).symm

/-- C1: a pool initialized with `fee_rate = 100` and `add_liquidity(100000)`
has reserves `(50000, 50000)` and `total_liquidity = 100000`; the swap
`execute_swap(1000, yes_to_no)` charges fee `10`, trades `990` net,
computes `k = 2500000000`, floors the new output reserve to `49029`,
returns `971`, and leaves reserves `(50990, 49029)` with
`accumulated_fees = 10`. -/
theorem pool_scenario_C1 :
    LiquidityPool.init 100 = .ok
      { total_liquidity := 0, yes_reserves := 0, no_reserves := 0,
        fee_rate := 100, accumulated_fees := 0, is_active := true } ∧
    ({ total_liquidity := 0, yes_reserves := 0, no_reserves := 0,
       fee_rate := 100, accumulated_fees := 0, is_active := true } :
        LiquidityPool).addLiquidity 100000 = (.ok 100000, poolA) ∧
    poolA.yes_reserves = 50000 ∧ poolA.no_reserves = 50000 ∧
    poolA.total_liquidity = 100000 ∧
    1000 * poolA.fee_rate / 10000 = 10 ∧ 1000 - 10 = 990 ∧
    poolA.yes_reserves * poolA.no_reserves = 2500000000 ∧
    2500000000 / 50990 = 49029 ∧ 50000 - 49029 = 971 ∧
    poolA.executeSwap 1000 true = (.ok 971, poolB) ∧
    poolB.yes_reserves = 50990 ∧ poolB.no_reserves = 49029 ∧
    poolB.accumulated_fees = 10 :=
  ⟨rfl, rfl, rfl, rfl, rfl, rfl, rfl, rfl, rfl, rfl, rfl, rfl, rfl, rfl⟩

/-- C2 counterexample: the very scenario of the specification violates
constant-product monotonicity — with `fee_rate = 100 > 0` the successful
swap `execute_swap(1000, yes_to_no)` on `poolA` lowers the reserve
product from `2500000000` to `50990 * 49029 = 2499988710`. -/
theorem product_decreases_C2_cex :
    0 < poolA.fee_rate ∧
    poolA.executeSwap 1000 true = (.ok 971, poolB) ∧
    poolB.yes_reserves * poolB.no_reserves <
      poolA.yes_reserves * poolA.no_reserves :=
  ⟨by decide, rfl, by decide⟩

/-- Arithmetic core of the product evolution of a swap: crediting the
input reserve and flooring the new output reserve bounds the new product
between the old product minus the new input reserve (exclusive) and the
old product. -/
theorem swap_product_core {Y N ainf out : Nat} (hY : 0 < Y)
    (hout : out = N - Y * N / (Y + ainf)) (_hlt : out < N) :
    (Y + ainf) * (N - out) ≤ Y * N ∧
    Y * N < (Y + ainf) * (N - out) + ((Y + ainf) + (N - out)) := by
  have hD : 0 < Y + ainf := by omega
  have h1 : Y * N / (Y + ainf) ≤ Y * N / Y :=
    Nat.div_le_div_left (Nat.le_add_right _ _) hY
  have h2 : Y * N / Y = N := Nat.mul_div_cancel_left _ hY
  have hKle : Y * N / (Y + ainf) ≤ N := le_trans h1 (le_of_eq h2)
  have hno : N - out = Y * N / (Y + ainf) := by
    rw [hout, Nat.sub_sub_self hKle]
  have hmlt : Y * N % (Y + ainf) < Y + ainf := Nat.mod_lt _ hD
  rw [hno]
  constructor
  · rw [Nat.mul_comm]
    exact Nat.div_mul_le_self (Y * N) (Y + ainf)
  · calc Y * N = (Y + ainf) * (Y * N / (Y + ainf)) + Y * N % (Y + ainf) :=
        (Nat.div_add_mod (Y * N) (Y + ainf)).symm
    _ < (Y + ainf) * (Y * N / (Y + ainf)) + (Y + ainf) :=
        Nat.add_lt_add_left hmlt _
    _ ≤ (Y + ainf) * (Y * N / (Y + ainf)) + ((Y + ainf) + Y * N / (Y + ainf)) :=
        Nat.add_le_add_left (Nat.le_add_right _ _) _

/-- Product evolution across any successful `execute_swap`, both
directions. -/
theorem executeSwap_product {p p' : LiquidityPool} {amt out : Nat}
    {dir : Bool} (h : p.executeSwap amt dir = (.ok out, p')) :
    p'.yes_reserves * p'.no_reserves ≤ p.yes_reserves * p.no_reserves ∧
    p.yes_reserves * p.no_reserves <
      p'.yes_reserves * p'.no_reserves + (p'.yes_reserves + p'.no_reserves) := by
  obtain ⟨hcalc, hacc, hp'⟩ := executeSwap_ok h
  obtain ⟨hact, hamt, hso⟩ := calcSwap_ok hcalc
  obtain ⟨hir, hor, hmul, hfle, hD, hK, hout, hlt⟩ := swapOutput_ok hso
  cases dir with
  | true =>
    have e1 : p.inputReserve true = p.yes_reserves := rfl
    have e2 : p.outputReserve true = p.no_reserves := rfl
    rw [e1] at hir
    rw [e2] at hor
    rw [e1, e2] at hout
    rw [e2] at hlt
    rw [if_pos rfl] at hp'
    subst hp'
    have core := swap_product_core hir hout hlt
    constructor
    · exact core.1
    · exact core.2
  | false =>
    have e1 : p.inputReserve false = p.no_reserves := rfl
    have e2 : p.outputReserve false = p.yes_reserves := rfl
    rw [e1] at hir
    rw [e2] at hor
    rw [e1, e2] at hout
    rw [e2] at hlt
    rw [if_neg (by simp)] at hp'
    subst hp'
    have core := swap_product_core hir hout hlt
    constructor
    · show (p.yes_reserves - out) * (p.no_reserves + (amt - amt * p.fee_rate / 10000)) ≤
        p.yes_reserves * p.no_reserves
      calc (p.yes_reserves - out) * (p.no_reserves + (amt - amt * p.fee_rate / 10000))
          = (p.no_reserves + (amt - amt * p.fee_rate / 10000)) * (p.yes_reserves - out) :=
            Nat.mul_comm _ _
      _ ≤ p.no_reserves * p.yes_reserves := core.1
      _ = p.yes_reserves * p.no_reserves := Nat.mul_comm _ _
    · show p.yes_reserves * p.no_reserves <
        (p.yes_reserves - out) * (p.no_reserves + (amt - amt * p.fee_rate / 10000)) +
        ((p.yes_reserves - out) + (p.no_reserves + (amt - amt * p.fee_rate / 10000)))
      have c2 := core.2
      calc p.yes_reserves * p.no_reserves
          = p.no_reserves * p.yes_reserves := Nat.mul_comm _ _
      _ < (p.no_reserves + (amt - amt * p.fee_rate / 10000)) * (p.yes_reserves - out) +
            ((p.no_reserves + (amt - amt * p.fee_rate / 10000)) + (p.yes_reserves - out)) := c2
      _ = (p.yes_reserves - out) * (p.no_reserves + (amt - amt * p.fee_rate / 10000)) +
            ((p.yes_reserves - out) + (p.no_reserves + (amt - amt * p.fee_rate / 10000))) := by
            ring

/-- C2 (amended): with a positive fee rate, across any successful
`execute_swap` the reserve product never increases; it drops by exactly
the division remainder, hence by less than the sum of the new reserves.
The specification's claimed direction (non-decreasing) is refuted by the
counterexample theorem. -/
theorem product_nonincreasing_C2 {p p' : LiquidityPool} {amt out : Nat}
    {dir : Bool} (_hfee : 0 < p.fee_rate)
    (h : p.executeSwap amt dir = (.ok out, p')) :
    p'.yes_reserves * p'.no_reserves ≤ p.yes_reserves * p.no_reserves ∧
    p.yes_reserves * p.no_reserves <
      p'.yes_reserves * p'.no_reserves + (p'.yes_reserves + p'.no_reserves) :=
  executeSwap_product h

/-- Witness instantiating the amended C2 theorem on the concrete scenario
swap. -/
theorem product_nonincreasing_C2_witness :
    poolB.yes_reserves * poolB.no_reserves ≤ poolA.yes_reserves * poolA.no_reserves ∧
    poolA.yes_reserves * poolA.no_reserves <
      poolB.yes_reserves * poolB.no_reserves + (poolB.yes_reserves + poolB.no_reserves) :=
  @product_nonincreasing_C2 poolA poolB 1000 971 true (by decide) rfl

/-- Success characterization of `addLiquidity`: validation passed, both
reserves were credited with half the amount, and the minted liquidity
tokens follow the source formula. -/
theorem addLiquidity_ok {p p' : LiquidityPool} {amount out : Nat}
    (h : p.addLiquidity amount = (.ok out, p')) :
    p.is_active = true ∧ 0 < amount ∧
    p' = { p with yes_reserves := p.yes_reserves + amount / 2,
                  no_reserves := p.no_reserves + amount / 2,
                  total_liquidity := p.total_liquidity + out } ∧
    out = p.liquidityTokensFor amount ∧
    p.yes_reserves + amount / 2 < U64 ∧ p.no_reserves + amount / 2 < U64 ∧
    p.total_liquidity + out < U64 := by
  unfold LiquidityPool.addLiquidity at h
  split_ifs at h with h1 h2 h3 h4 h5 h6 h7
  all_goals try exact Except.noConfusion (congrArg Prod.fst h)
  have hfst := congrArg Prod.fst h
  injection hfst with hout
  have hsnd := congrArg Prod.snd h
  rw [hout] at hsnd
  refine ⟨by revert h1; cases p.is_active <;> simp, Nat.pos_of_ne_zero h2,
    hsnd.symm, hout.symm, not_le.mp h5, not_le.mp h6, ?_⟩
  rw [← hout]
  exact not_le.mp h7

/-- C3 counterexample: `add_liquidity` can report an error and still leave
the record mutated — on `poolEdge` (reserve `2 ^ 64 - 1` on the no side)
the call `add_liquidity(2)` fails with `MathOverflow` after having
already credited `yes_reserves`. -/
theorem nonatomic_error_C3_cex :
    (poolEdge.addLiquidity 2).1 = .error .MathOverflow ∧
    (poolEdge.addLiquidity 2).2 ≠ poolEdge :=
  ⟨rfl, by decide⟩

/-- Error characterization of `executeSwap`: an error leaves the pool
either unchanged or in one of the explicit partially-written states
reached when a late checked add overflows. -/
theorem executeSwap_err {p pfin : LiquidityPool} {amt : Nat} {dir : Bool}
    {e : ZentroError} (h : p.executeSwap amt dir = (.error e, pfin)) :
    pfin = p ∨
    ∃ out, p.calculateSwapOutput amt dir = .ok out ∧
      (pfin = { p with yes_reserves := p.yes_reserves + (amt - amt * p.fee_rate / 10000) } ∨
       pfin = { p with yes_reserves := p.yes_reserves + (amt - amt * p.fee_rate / 10000),
                       no_reserves := p.no_reserves - out } ∨
       pfin = { p with no_reserves := p.no_reserves + (amt - amt * p.fee_rate / 10000) } ∨
       pfin = { p with no_reserves := p.no_reserves + (amt - amt * p.fee_rate / 10000),
                       yes_reserves := p.yes_reserves - out }) := by
  unfold LiquidityPool.executeSwap at h
  cases hc : p.calculateSwapOutput amt dir with
  | error e2 =>
    rw [hc] at h
    exact Or.inl (congrArg Prod.snd h).symm
  | ok o =>
    rw [hc] at h
    dsimp only at h
    split_ifs at h with g1 g2 g3 g4 g5 g6 g7 g8 g9
    all_goals try exact Except.noConfusion (congrArg Prod.fst h)
    all_goals first
      | exact Or.inl (congrArg Prod.snd h).symm
      | exact Or.inr ⟨o, rfl, Or.inl (congrArg Prod.snd h).symm⟩
      | exact Or.inr ⟨o, rfl, Or.inr (Or.inl (congrArg Prod.snd h).symm)⟩
      | exact Or.inr ⟨o, rfl, Or.inr (Or.inr (Or.inl (congrArg Prod.snd h).symm))⟩
      | exact Or.inr ⟨o, rfl, Or.inr (Or.inr (Or.inr (congrArg Prod.snd h).symm))⟩

/-- C3 (amended): `place_bet`, `resolve` and `remove_liquidity` leave the
record unchanged on every error; `add_liquidity` and `execute_swap` leave
it unchanged on every error raised before their first field write, but a
checked-add overflow detected after a field write leaves the earlier
writes applied in source order, so those two can leave a partially
updated record (the original full-atomicity claim is refuted by the
counterexample theorem). -/
theorem atomic_on_error_C3 :
    (∀ (m : Market) (now : Int) (amount : Nat) (side : Bool),
      (m.placeBet now amount side).1.isOk = false →
      (m.placeBet now amount side).2 = m) ∧
    (∀ (m : Market) (now : Int) (o : Bool),
      (m.resolve now o).1.isOk = false → (m.resolve now o).2 = m) ∧
    (∀ (p : LiquidityPool) (tokens : Nat),
      (p.removeLiquidity tokens).1.isOk = false → (p.removeLiquidity tokens).2 = p) ∧
    (∀ (p : LiquidityPool) (amount : Nat),
      (p.addLiquidity amount).1.isOk = false →
      ((p.addLiquidity amount).2 = p ∨
       (p.addLiquidity amount).2 =
         { p with yes_reserves := p.yes_reserves + amount / 2 } ∨
       (p.addLiquidity amount).2 =
         { p with yes_reserves := p.yes_reserves + amount / 2,
                  no_reserves := p.no_reserves + amount / 2 })) ∧
    (∀ (p : LiquidityPool) (amount : Nat) (dir : Bool),
      (p.executeSwap amount dir).1.isOk = false →
      ((p.executeSwap amount dir).2 = p ∨
       ∃ out, p.calculateSwapOutput amount dir = .ok out ∧
         ((p.executeSwap amount dir).2 =
            { p with yes_reserves := p.yes_reserves + (amount - amount * p.fee_rate / 10000) } ∨
          (p.executeSwap amount dir).2 =
            { p with yes_reserves := p.yes_reserves + (amount - amount * p.fee_rate / 10000),
                     no_reserves := p.no_reserves - out } ∨
          (p.executeSwap amount dir).2 =
            { p with no_reserves := p.no_reserves + (amount - amount * p.fee_rate / 10000) } ∨
          (p.executeSwap amount dir).2 =
            { p with no_reserves := p.no_reserves + (amount - amount * p.fee_rate / 10000),
                     yes_reserves := p.yes_reserves - out }))) := by
  refine ⟨?_, ?_, ?_, ?_, ?_⟩
  · intro m now amount side herr
    unfold Market.placeBet at herr ⊢
    split_ifs at herr ⊢ <;> first | rfl | simp [Except.isOk, Except.toBool] at herr
  · intro m now o herr
    unfold Market.resolve at herr ⊢
    split_ifs at herr ⊢ <;> first | rfl | simp [Except.isOk, Except.toBool] at herr
  · intro p tokens herr
    unfold LiquidityPool.removeLiquidity at herr ⊢
    split_ifs at herr ⊢ <;> first | rfl | simp [Except.isOk, Except.toBool] at herr
  · intro p amount herr
    unfold LiquidityPool.addLiquidity at herr ⊢
    split_ifs at herr ⊢ <;>
      first
        | exact Or.inl rfl
        | exact Or.inr (Or.inl rfl)
        | exact Or.inr (Or.inr rfl)
        | simp [Except.isOk, Except.toBool] at herr
  · intro p amount dir herr
    cases hE : p.executeSwap amount dir with
    | mk res pfin =>
      rw [hE] at herr
      cases res with
      | ok v => simp [Except.isOk, Except.toBool] at herr
      | error e => exact executeSwap_err hE

/-- Witness instantiating the amended C3 theorem: a too-small bet fails
and leaves the market record unchanged. -/
theorem atomic_on_error_C3_witness :
    (marketOpen.placeBet 0 5 true).1.isOk = false ∧
    (marketOpen.placeBet 0 5 true).2 = marketOpen :=
  ⟨by decide, atomic_on_error_C3.1 marketOpen 0 5 true (by decide)⟩

/-- Floor prices of the two sides of a pool sum to 9999 or 10000
(depending on whether the division remainders vanish). -/
theorem floor_pair_sum {y n : Nat} (hy : 0 < y) (hn : 0 < n) :
    9999 ≤ y * 10000 / (y + n) + n * 10000 / (y + n) ∧
    y * 10000 / (y + n) + n * 10000 / (y + n) ≤ 10000 := by
  have ht : 0 < y + n := by omega
  have h1 := Nat.div_add_mod (y * 10000) (y + n)
  have h2 := Nat.div_add_mod (n * 10000) (y + n)
  have h3 : y * 10000 % (y + n) < y + n := Nat.mod_lt _ ht
  have h4 : n * 10000 % (y + n) < y + n := Nat.mod_lt _ ht
  have hsum : (y + n) * (y * 10000 / (y + n) + n * 10000 / (y + n)) +
      (y * 10000 % (y + n) + n * 10000 % (y + n)) = (y + n) * 10000 := by
    calc (y + n) * (y * 10000 / (y + n) + n * 10000 / (y + n)) +
        (y * 10000 % (y + n) + n * 10000 % (y + n))
        = ((y + n) * (y * 10000 / (y + n)) + y * 10000 % (y + n)) +
          ((y + n) * (n * 10000 / (y + n)) + n * 10000 % (y + n)) := by ring
    _ = y * 10000 + n * 10000 := by rw [h1, h2]
    _ = (y + n) * 10000 := by ring
  constructor
  · by_contra hcon
    push_neg at hcon
    have hle : y * 10000 / (y + n) + n * 10000 / (y + n) ≤ 9998 :=
      Nat.le_of_lt_succ hcon
    have hm : (y + n) * (y * 10000 / (y + n) + n * 10000 / (y + n)) ≤ (y + n) * 9998 :=
      Nat.mul_le_mul_left _ hle
    have hr : (y + n) * 9998 + 2 * (y + n) = (y + n) * 10000 := by ring
    linarith
  · have hR0 : 0 ≤ y * 10000 % (y + n) + n * 10000 % (y + n) := Nat.zero_le _
    have hmle : (y + n) * (y * 10000 / (y + n) + n * 10000 / (y + n)) ≤
        (y + n) * 10000 := by linarith
    exact Nat.le_of_mul_le_mul_left hmle ht

/-- C4 counterexample: on the pool with reserves `(1, 2)` both prices
succeed but sum to 9999, not 10000, refuting the exact-sum claim. -/
theorem price_sum_C4_cex :
    poolOdd.getPrice true = .ok 3333 ∧ poolOdd.getPrice false = .ok 6666 ∧
    3333 + 6666 ≠ 10000 :=
  ⟨rfl, rfl, by decide⟩

/-- C4 (amended): for every pool with both reserves positive (and the
basis-point products within `u64`) both prices succeed, their sum lies in
`{9999, 10000}` (it can be 9999 by flooring, not always exactly 10000),
and `get_price` fails with `InsufficientLiquidity` whenever either
reserve is zero. -/
theorem price_sum_C4 {p : LiquidityPool}
    (hy : 0 < p.yes_reserves) (hn : 0 < p.no_reserves)
    (hby : p.yes_reserves * 10000 < U64) (hbn : p.no_reserves * 10000 < U64) :
    p.getPrice true = .ok (p.yes_reserves * 10000 / (p.yes_reserves + p.no_reserves)) ∧
    p.getPrice false = .ok (p.no_reserves * 10000 / (p.yes_reserves + p.no_reserves)) ∧
    9999 ≤ p.yes_reserves * 10000 / (p.yes_reserves + p.no_reserves) +
           p.no_reserves * 10000 / (p.yes_reserves + p.no_reserves) ∧
    p.yes_reserves * 10000 / (p.yes_reserves + p.no_reserves) +
           p.no_reserves * 10000 / (p.yes_reserves + p.no_reserves) ≤ 10000 ∧
    (∀ q : LiquidityPool, q.yes_reserves = 0 ∨ q.no_reserves = 0 →
      ∀ b, q.getPrice b = .error .InsufficientLiquidity) := by
  have hU : U64 = 18446744073709551616 := by norm_num [U64]
  have hsum : p.yes_reserves + p.no_reserves < U64 := by omega
  refine ⟨?_, ?_, (floor_pair_sum hy hn).1, (floor_pair_sum hy hn).2, ?_⟩
  · unfold LiquidityPool.getPrice
    rw [if_neg (not_not_intro ⟨hy, hn⟩), if_neg (not_le.mpr hsum), if_pos rfl,
      if_neg (not_le.mpr hby)]
  · unfold LiquidityPool.getPrice
    rw [if_neg (not_not_intro ⟨hy, hn⟩), if_neg (not_le.mpr hsum), if_neg (by simp),
      if_neg (not_le.mpr hbn)]
  · intro q hq b
    unfold LiquidityPool.getPrice
    rw [if_pos (show ¬ (0 < q.yes_reserves ∧ 0 < q.no_reserves) by
      rcases hq with h | h <;> simp [h])]

/-- Witness instantiating the amended C4 theorem on the pool with
reserves `(1, 2)`. -/
theorem price_sum_C4_witness :
    poolOdd.getPrice true =
      .ok (poolOdd.yes_reserves * 10000 / (poolOdd.yes_reserves + poolOdd.no_reserves)) ∧
    poolOdd.getPrice false =
      .ok (poolOdd.no_reserves * 10000 / (poolOdd.yes_reserves + poolOdd.no_reserves)) ∧
    9999 ≤ poolOdd.yes_reserves * 10000 / (poolOdd.yes_reserves + poolOdd.no_reserves) +
           poolOdd.no_reserves * 10000 / (poolOdd.yes_reserves + poolOdd.no_reserves) ∧
    poolOdd.yes_reserves * 10000 / (poolOdd.yes_reserves + poolOdd.no_reserves) +
           poolOdd.no_reserves * 10000 / (poolOdd.yes_reserves + poolOdd.no_reserves) ≤ 10000 ∧
    (∀ q : LiquidityPool, q.yes_reserves = 0 ∨ q.no_reserves = 0 →
      ∀ b, q.getPrice b = .error .InsufficientLiquidity) :=
  @price_sum_C4 poolOdd (by decide) (by decide) (by decide) (by decide)

/-- C8: a successful `calculate_swap_output` is always strictly below the
opposite-side reserve, and a state in which the computed output would
equal the opposite reserve (all prior checks passing) fails with
`InsufficientLiquidity`. -/
theorem no_full_drain_C8 {p : LiquidityPool} {amt out : Nat} {dir : Bool}
    (h : p.calculateSwapOutput amt dir = .ok out) :
    out < p.outputReserve dir ∧
    (∀ (q : LiquidityPool) (a : Nat) (d : Bool),
      q.is_active = true → 0 < a →
      0 < q.inputReserve d → 0 < q.outputReserve d →
      a * q.fee_rate < U64 →
      a * q.fee_rate / 10000 ≤ a →
      q.inputReserve d + (a - a * q.fee_rate / 10000) < U64 →
      q.inputReserve d * q.outputReserve d < U64 →
      q.outputReserve d -
        q.inputReserve d * q.outputReserve d /
          (q.inputReserve d + (a - a * q.fee_rate / 10000)) = q.outputReserve d →
      q.calculateSwapOutput a d = .error .InsufficientLiquidity) := by
  obtain ⟨hact, hamt, hso⟩ := calcSwap_ok h
  obtain ⟨hir, hor, hmul, hfle, hD, hK, hout, hlt⟩ := swapOutput_ok hso
  refine ⟨hlt, ?_⟩
  intro q a d hact' hapos hir' hor' hmul' hfle' hD' hK' heq
  have hKD_le : ¬ (q.outputReserve d <
      q.inputReserve d * q.outputReserve d /
        (q.inputReserve d + (a - a * q.fee_rate / 10000))) := by
    intro hcon
    have h0 : q.outputReserve d -
        q.inputReserve d * q.outputReserve d /
          (q.inputReserve d + (a - a * q.fee_rate / 10000)) = 0 :=
      Nat.sub_eq_zero_of_le (le_of_lt hcon)
    rw [h0] at heq
    exact absurd heq.symm (Nat.pos_iff_ne_zero.mp hor')
  have hfin : ¬ (q.outputReserve d -
      q.inputReserve d * q.outputReserve d /
        (q.inputReserve d + (a - a * q.fee_rate / 10000)) < q.outputReserve d) := by
    rw [heq]; exact lt_irrefl _
  unfold LiquidityPool.calculateSwapOutput swapOutput
  rw [if_neg (by simp [hact']), if_neg (Nat.pos_iff_ne_zero.mp hapos),
    if_neg (not_not_intro ⟨hir', hor'⟩), if_neg (not_le.mpr hmul'),
    if_neg (not_lt.mpr hfle'), if_neg (not_le.mpr hD'), if_neg (not_le.mpr hK'),
    if_neg (Nat.pos_iff_ne_zero.mp (Nat.add_pos_left hir' _)),
    if_neg hKD_le, if_pos hfin]

/-- Witness instantiating the C8 theorem on the concrete scenario swap. -/
theorem no_full_drain_C8_witness : (971 : Nat) < poolA.outputReserve true :=
  (@no_full_drain_C8 poolA 1000 971 true rfl).1

/-- C5: `place_bet` fails on a resolved market, on an expired market, on
amounts outside `[min_bet, max_bet]`, surfaces an overflow error (state
unchanged) instead of wrapping, accumulates the amount on the chosen
side on success, and satisfies the `min_bet = 10, max_bet = 1000`
scenario. -/
theorem place_bet_C5 :
    (∀ (m : Market) (now : Int) (amount : Nat) (side : Bool),
      m.resolved = true →
      m.placeBet now amount side = (.error .MarketResolved, m)) ∧
    (∀ (m : Market) (now : Int) (amount : Nat) (side : Bool),
      m.resolved = false → m.end_time ≤ now →
      m.placeBet now amount side = (.error .MarketExpired, m)) ∧
    (∀ (m : Market) (now : Int) (amount : Nat) (side : Bool),
      m.resolved = false → now < m.end_time → amount < m.min_bet_amount →
      m.placeBet now amount side = (.error .BetTooSmall, m)) ∧
    (∀ (m : Market) (now : Int) (amount : Nat) (side : Bool),
      m.resolved = false → now < m.end_time → m.min_bet_amount ≤ amount →
      m.max_bet_amount < amount →
      m.placeBet now amount side = (.error .BetTooLarge, m)) ∧
    (∀ (m : Market) (now : Int) (amount : Nat),
      m.resolved = false → now < m.end_time → m.min_bet_amount ≤ amount →
      amount ≤ m.max_bet_amount → U64 ≤ m.total_yes_amount + amount →
      m.placeBet now amount true = (.error .Overflow, m)) ∧
    (∀ (m : Market) (now : Int) (amount : Nat),
      m.resolved = false → now < m.end_time → m.min_bet_amount ≤ amount →
      amount ≤ m.max_bet_amount → U64 ≤ m.total_no_amount + amount →
      m.placeBet now amount false = (.error .Overflow, m)) ∧
    (∀ (m : Market) (now : Int) (amount : Nat),
      m.resolved = false → now < m.end_time → m.min_bet_amount ≤ amount →
      amount ≤ m.max_bet_amount → m.total_yes_amount + amount < U64 →
      m.placeBet now amount true =
        (.ok (), { m with total_yes_amount := m.total_yes_amount + amount })) ∧
    (∀ (m : Market) (now : Int) (amount : Nat),
      m.resolved = false → now < m.end_time → m.min_bet_amount ≤ amount →
      amount ≤ m.max_bet_amount → m.total_no_amount + amount < U64 →
      m.placeBet now amount false =
        (.ok (), { m with total_no_amount := m.total_no_amount + amount })) ∧
    marketOpen.placeBet 0 5 true = (.error .BetTooSmall, marketOpen) ∧
    (marketOpen.placeBet 0 10 true).1 = .ok () ∧
    (marketOpen.placeBet 0 10 true).2.total_yes_amount = 10 := by
  refine ⟨?_, ?_, ?_, ?_, ?_, ?_, ?_, ?_, rfl, rfl, rfl⟩
  · intro m now amount side hres
    unfold Market.placeBet
    rw [if_pos hres]
  · intro m now amount side hres hle
    unfold Market.placeBet
    rw [if_neg (by simp [hres]), if_pos (not_lt.mpr hle)]
  · intro m now amount side hres hnow hsmall
    unfold Market.placeBet
    rw [if_neg (by simp [hres]), if_neg (not_not_intro hnow), if_pos hsmall]
  · intro m now amount side hres hnow hminle hlarge
    unfold Market.placeBet
    rw [if_neg (by simp [hres]), if_neg (not_not_intro hnow),
      if_neg (not_lt.mpr hminle), if_pos hlarge]
  · intro m now amount hres hnow hminle hmaxle hov
    unfold Market.placeBet
    rw [if_neg (by simp [hres]), if_neg (not_not_intro hnow),
      if_neg (not_lt.mpr hminle), if_neg (not_lt.mpr hmaxle), if_pos rfl,
      if_pos hov]
  · intro m now amount hres hnow hminle hmaxle hov
    unfold Market.placeBet
    rw [if_neg (by simp [hres]), if_neg (not_not_intro hnow),
      if_neg (not_lt.mpr hminle), if_neg (not_lt.mpr hmaxle), if_neg (by simp),
      if_pos hov]
  · intro m now amount hres hnow hminle hmaxle hlt
    unfold Market.placeBet
    rw [if_neg (by simp [hres]), if_neg (not_not_intro hnow),
      if_neg (not_lt.mpr hminle), if_neg (not_lt.mpr hmaxle), if_pos rfl,
      if_neg (not_le.mpr hlt)]
  · intro m now amount hres hnow hminle hmaxle hlt
    unfold Market.placeBet
    rw [if_neg (by simp [hres]), if_neg (not_not_intro hnow),
      if_neg (not_lt.mpr hminle), if_neg (not_lt.mpr hmaxle), if_neg (by simp),
      if_neg (not_le.mpr hlt)]

/-- Witness instantiating the C5 theorem: betting on a resolved market
fails with `MarketResolved` and leaves the record unchanged. -/
theorem place_bet_C5_witness :
    marketDone.placeBet 0 50 true = (.error .MarketResolved, marketDone) :=
  place_bet_C5.1 marketDone 0 50 true rfl

/-- Success characterization of `resolve`. -/
theorem resolve_ok {m m' : Market} {now : Int} {o : Bool}
    (h : m.resolve now o = (.ok (), m')) :
    m.resolved = false ∧ m.end_time ≤ now ∧
    m' = { m with resolved := true, resolution := some o,
                  resolved_at := some now } := by
  unfold Market.resolve at h
  split_ifs at h with g1 g2
  all_goals try exact Except.noConfusion (congrArg Prod.fst h)
  exact ⟨by revert g1; cases m.resolved <;> simp, not_lt.mp g2,
    (congrArg Prod.snd h).symm⟩

/-- Once a market record is resolved, both mutating operations fail
before writing, so one step leaves it fixed. -/
theorem resolved_step_fixed {m : Market} (hres : m.resolved = true)
    (op : MarketOp) : m.step op = m := by
  cases op with
  | bet now amount is_yes =>
    show (m.placeBet now amount is_yes).2 = m
    unfold Market.placeBet
    rw [if_pos hres]
  | res now outcome =>
    show (m.resolve now outcome).2 = m
    unfold Market.resolve
    rw [if_pos hres]

/-- A resolved market record is fixed under every operation sequence. -/
theorem resolved_run_fixed {m : Market} (hres : m.resolved = true)
    (ops : List MarketOp) : m.run ops = m := by
  induction ops with
  | nil => rfl
  | cons op ops ih =>
    unfold Market.run
    rw [resolved_step_fixed hres]
    exact ih

/-- C7: after a successful `resolve`, in every reachable later state the
stored resolution is unchanged, and both `resolve` and `place_bet` fail
(`AlreadyResolved` / `MarketResolved`). -/
theorem resolution_finality_C7 {m m' : Market} {now : Int} {o : Bool}
    (h : m.resolve now o = (.ok (), m')) :
    m'.resolved = true ∧ m'.resolution = some o ∧
    ∀ ops : List MarketOp,
      (m'.run ops) = m' ∧
      (m'.run ops).resolution = some o ∧
      (∀ (now2 : Int) (o2 : Bool),
        ((m'.run ops).resolve now2 o2).1 = .error .AlreadyResolved) ∧
      (∀ (now2 : Int) (amount : Nat) (side : Bool),
        ((m'.run ops).placeBet now2 amount side).1 = .error .MarketResolved) := by
  obtain ⟨hres0, hle, hm'⟩ := resolve_ok h
  have hres' : m'.resolved = true := by rw [hm']
  have hsol : m'.resolution = some o := by rw [hm']
  refine ⟨hres', hsol, ?_⟩
  intro ops
  have hrun := resolved_run_fixed hres' ops
  rw [hrun]
  refine ⟨rfl, hsol, ?_, ?_⟩
  · intro now2 o2
    unfold Market.resolve
    rw [if_pos hres']
  · intro now2 amount side
    unfold Market.placeBet
    rw [if_pos hres']

/-- Witness instantiating the C7 theorem on a concrete resolution. -/
theorem resolution_finality_C7_witness :
    marketDone.resolved = true ∧ marketDone.resolution = some true ∧
    ∀ ops : List MarketOp,
      (marketDone.run ops) = marketDone ∧
      (marketDone.run ops).resolution = some true ∧
      (∀ (now2 : Int) (o2 : Bool),
        ((marketDone.run ops).resolve now2 o2).1 = .error .AlreadyResolved) ∧
      (∀ (now2 : Int) (amount : Nat) (side : Bool),
        ((marketDone.run ops).placeBet now2 amount side).1 =
          .error .MarketResolved) :=
  @resolution_finality_C7 marketOpen marketDone 100 true rfl

/-- Success characterization of `claim_winnings`: the market was
resolved, the caller is the recorded owner, the position was unclaimed,
and the resulting position is marked claimed. -/
theorem claimWinnings_ok {m : Lib.Market} {c : Nat}
    {pos pos2 : Lib.UserPosition} {v : Nat}
    (h : Lib.claimWinnings m c pos = (.ok v, pos2)) :
    m.resolved = true ∧ pos.user = c ∧ pos.claimed = false ∧
    pos2 = { pos with claimed := true } := by
  unfold Lib.claimWinnings at h
  split_ifs at h with g1 g2 g3
  all_goals try exact Except.noConfusion (congrArg Prod.fst h)
  have hres : m.resolved = true := by revert g1; cases m.resolved <;> simp
  have huser : pos.user = c := not_not.mp g2
  have hcl : pos.claimed = false := by revert g3; cases pos.claimed <;> simp
  cases ho : m.outcome with
  | none =>
    rw [ho] at h
    exact absurd (congrArg Prod.fst h) (by simp)
  | some o =>
    rw [ho] at h
    dsimp only at h
    split_ifs at h
    all_goals try exact Except.noConfusion (congrArg Prod.fst h)
    all_goals exact ⟨hres, huser, hcl, (congrArg Prod.snd h).symm⟩

/-- A claimed position is fixed by any further `claim_winnings` call
(the call always errors before the write). -/
theorem claimStep_claimed {m : Lib.Market} {pos : Lib.UserPosition}
    (hcl : pos.claimed = true) (c : Nat) : Lib.claimStep m pos c = pos := by
  unfold Lib.claimStep Lib.claimWinnings
  split_ifs <;> rfl

/-- C6: `claim_winnings` fails when the market is unresolved, when the
caller is not the recorded owner, when the position is already claimed,
or when the winning-side stake is zero; on success it pays
`winning_stake * total_pool / total_winning_pool` (floored, 128-bit
intermediate) and marks the position claimed; afterwards every further
call on that position fails — with `AlreadyClaimed` for the owner — and
never changes the position again. -/
theorem claim_winnings_C6 :
    (∀ (m : Lib.Market) (c : Nat) (pos : Lib.UserPosition),
      m.resolved = false →
      Lib.claimWinnings m c pos = (.error .MarketNotResolved, pos)) ∧
    (∀ (m : Lib.Market) (c : Nat) (pos : Lib.UserPosition),
      m.resolved = true → pos.user ≠ c →
      Lib.claimWinnings m c pos = (.error .UnauthorizedUser, pos)) ∧
    (∀ (m : Lib.Market) (c : Nat) (pos : Lib.UserPosition),
      m.resolved = true → pos.user = c → pos.claimed = true →
      Lib.claimWinnings m c pos = (.error .AlreadyClaimed, pos)) ∧
    (∀ (m : Lib.Market) (c : Nat) (pos : Lib.UserPosition) (o : Bool),
      m.resolved = true → pos.user = c → pos.claimed = false →
      m.outcome = some o →
      (if o then pos.yes_tokens else pos.no_tokens) = 0 →
      Lib.claimWinnings m c pos = (.error .NoWinnings, pos)) ∧
    (∀ (m : Lib.Market) (c : Nat) (pos : Lib.UserPosition) (o : Bool),
      m.resolved = true → pos.user = c → pos.claimed = false →
      m.outcome = some o →
      0 < (if o then pos.yes_tokens else pos.no_tokens) →
      (if o then pos.yes_tokens else pos.no_tokens) ≤
        (if o then m.total_yes_tokens else m.total_no_tokens) →
      m.total_yes_tokens + m.total_no_tokens < U64 →
      Lib.claimWinnings m c pos =
        (.ok ((if o then pos.yes_tokens else pos.no_tokens) *
              (m.total_yes_tokens + m.total_no_tokens) /
              (if o then m.total_yes_tokens else m.total_no_tokens)),
         { pos with claimed := true })) ∧
    (∀ (m : Lib.Market) (c : Nat) (pos pos2 : Lib.UserPosition) (v : Nat),
      Lib.claimWinnings m c pos = (.ok v, pos2) →
      pos2.claimed = true ∧
      (∀ callers : List Nat, Lib.claimRun m pos2 callers = pos2) ∧
      (∀ c2 : Nat, c2 = pos2.user →
        Lib.claimWinnings m c2 pos2 = (.error .AlreadyClaimed, pos2)) ∧
      (∀ c2 : Nat, c2 ≠ pos2.user →
        Lib.claimWinnings m c2 pos2 = (.error .UnauthorizedUser, pos2))) := by
  refine ⟨?_, ?_, ?_, ?_, ?_, ?_⟩
  · intro m c pos hres
    unfold Lib.claimWinnings
    rw [if_pos hres]
  · intro m c pos hres hneq
    unfold Lib.claimWinnings
    rw [if_neg (by simp [hres]), if_pos hneq]
  · intro m c pos hres huser hcl
    unfold Lib.claimWinnings
    rw [if_neg (by simp [hres]), if_neg (not_not_intro huser), if_pos hcl]
  · intro m c pos o hres huser hcl ho hzero
    unfold Lib.claimWinnings
    rw [if_neg (by simp [hres]), if_neg (not_not_intro huser),
      if_neg (by simp [hcl])]
    simp only [ho]
    rw [if_pos hzero]
  · intro m c pos o hres huser hcl ho hwin hwle hsum
    have htw : 0 < (if o then m.total_yes_tokens else m.total_no_tokens) :=
      lt_of_lt_of_le hwin hwle
    unfold Lib.claimWinnings
    rw [if_neg (by simp [hres]), if_neg (not_not_intro huser),
      if_neg (by simp [hcl])]
    simp only [ho]
    rw [if_neg (Nat.pos_iff_ne_zero.mp hwin),
      if_neg (Nat.pos_iff_ne_zero.mp htw)]
    have hm1 : (m.total_yes_tokens + m.total_no_tokens) % U64 =
        m.total_yes_tokens + m.total_no_tokens := Nat.mod_eq_of_lt hsum
    rw [hm1]
    have hple : (if o then pos.yes_tokens else pos.no_tokens) *
        (m.total_yes_tokens + m.total_no_tokens) /
        (if o then m.total_yes_tokens else m.total_no_tokens) ≤
        m.total_yes_tokens + m.total_no_tokens := by
      have h1 : (if o then pos.yes_tokens else pos.no_tokens) *
          (m.total_yes_tokens + m.total_no_tokens) ≤
          (if o then m.total_yes_tokens else m.total_no_tokens) *
          (m.total_yes_tokens + m.total_no_tokens) :=
        Nat.mul_le_mul_right _ hwle
      have h2 : (if o then pos.yes_tokens else pos.no_tokens) *
          (m.total_yes_tokens + m.total_no_tokens) /
          (if o then m.total_yes_tokens else m.total_no_tokens) ≤
          (if o then m.total_yes_tokens else m.total_no_tokens) *
          (m.total_yes_tokens + m.total_no_tokens) /
          (if o then m.total_yes_tokens else m.total_no_tokens) :=
        Nat.div_le_div_right h1
      rwa [Nat.mul_div_cancel_left _ htw] at h2
    rw [Nat.mod_eq_of_lt (lt_of_le_of_lt hple hsum)]
  · intro m c pos pos2 v h
    obtain ⟨hres, huser, hcl, hpos2⟩ := claimWinnings_ok h
    have hcl2 : pos2.claimed = true := by rw [hpos2]
    refine ⟨hcl2, ?_, ?_, ?_⟩
    · intro callers
      induction callers with
      | nil => rfl
      | cons c2 cs ih =>
        unfold Lib.claimRun
        rw [claimStep_claimed hcl2]
        exact ih
    · intro c2 hc2
      unfold Lib.claimWinnings
      rw [if_neg (by simp [hres]), if_neg (not_not_intro hc2.symm),
        if_pos hcl2]
    · intro c2 hc2
      unfold Lib.claimWinnings
      rw [if_neg (by simp [hres]), if_pos (fun he => hc2 he.symm)]

/-- Witness instantiating the C6 success conjunct: user 7 claims 30
winning tokens of a 150-token pool with a 100-token winning side,
receiving `30 * 150 / 100 = 45` and marking the position claimed. -/
theorem claim_winnings_C6_witness :
    Lib.claimWinnings lmarket 7 lposition =
      (.ok ((if true then lposition.yes_tokens else lposition.no_tokens) *
            (lmarket.total_yes_tokens + lmarket.total_no_tokens) /
            (if true then lmarket.total_yes_tokens else lmarket.total_no_tokens)),
       { lposition with claimed := true }) :=
  claim_winnings_C6.2.2.2.2.1 lmarket 7 lposition true rfl rfl rfl rfl
    (by decide) (by decide) (by decide)

/-- C9 counterexample: at `price = 2000`, `shares = 10000`,
`liquidity = 10000`, the no-side buy price is `8200` — the `200`
surcharge is `base_cost * slippage / 10000` computed from the yes-side
base cost `2000`, not the `800` the claim's complementary-base formula
predicts (which would give `8800`). -/
theorem buy_price_C9_cex :
    calculate_buy_price 2000 10000 10000 false = 8200 ∧
    (10000 - 2000) * 10000 / 10000 +
      ((10000 - 2000) * 10000 / 10000) *
        calculate_slippage 10000 10000 / 10000 = 8800 ∧
    (8200 : Nat) ≠ 8800 :=
  ⟨rfl, rfl, by decide⟩

/-- C9 (amended): within `u64` bounds, the yes-side buy price is
`base + base * slippage / 10000` with `base = price * shares / 10000`,
but the no-side buy price is `inverse_base + base * slippage / 10000`
with `inverse_base = (10000 - price) * shares / 10000` — the surcharge is
computed from the yes-side base cost, not from the complementary base;
on both sides the surcharge only ever increases the cost. -/
theorem buy_price_C9 {price shares tl : Nat} (hs : shares ≠ 0)
    (hps : price * shares < U64)
    (hinv : (10000 - price) * shares < U64)
    (hsl : price * shares / 10000 * calculate_slippage shares tl < U64)
    (hyes : price * shares / 10000 +
      price * shares / 10000 * calculate_slippage shares tl / 10000 < U64)
    (hno : (10000 - price) * shares / 10000 +
      price * shares / 10000 * calculate_slippage shares tl / 10000 < U64) :
    calculate_buy_price price shares tl true =
      price * shares / 10000 +
        price * shares / 10000 * calculate_slippage shares tl / 10000 ∧
    calculate_buy_price price shares tl false =
      (10000 - price) * shares / 10000 +
        price * shares / 10000 * calculate_slippage shares tl / 10000 ∧
    price * shares / 10000 ≤ calculate_buy_price price shares tl true ∧
    (10000 - price) * shares / 10000 ≤ calculate_buy_price price shares tl false := by
  have e1 : sat64_mul price shares = price * shares := by
    unfold sat64_mul
    exact Nat.min_eq_left (Nat.le_pred_of_lt hps)
  have e3 : sat64_mul (sat64_sub 10000 price) shares = (10000 - price) * shares := by
    unfold sat64_mul sat64_sub
    exact Nat.min_eq_left (Nat.le_pred_of_lt hinv)
  have e4 : sat64_mul (price * shares / 10000) (calculate_slippage shares tl) =
      price * shares / 10000 * calculate_slippage shares tl := by
    unfold sat64_mul
    exact Nat.min_eq_left (Nat.le_pred_of_lt hsl)
  have e5 : ∀ a b : Nat, a + b < U64 → sat64_add a b = a + b := by
    intro a b hab
    unfold sat64_add
    exact Nat.min_eq_left (Nat.le_pred_of_lt hab)
  refine ⟨?_, ?_, ?_, ?_⟩
  · unfold calculate_buy_price
    rw [if_neg hs, if_pos rfl, e1, e4, e5 _ _ hyes]
  · unfold calculate_buy_price
    rw [if_neg hs, if_neg (by simp), e1, e3, e4, e5 _ _ hno]
  · unfold calculate_buy_price
    rw [if_neg hs, if_pos rfl, e1, e4, e5 _ _ hyes]
    exact Nat.le_add_right _ _
  · unfold calculate_buy_price
    rw [if_neg hs, if_neg (by simp), e1, e3, e4, e5 _ _ hno]
    exact Nat.le_add_right _ _

/-- Witness instantiating the amended C9 theorem at `price = 2000`,
`shares = 10000`, `liquidity = 10000`. -/
theorem buy_price_C9_witness :
    calculate_buy_price 2000 10000 10000 true =
      2000 * 10000 / 10000 +
        2000 * 10000 / 10000 * calculate_slippage 10000 10000 / 10000 ∧
    calculate_buy_price 2000 10000 10000 false =
      (10000 - 2000) * 10000 / 10000 +
        2000 * 10000 / 10000 * calculate_slippage 10000 10000 / 10000 ∧
    2000 * 10000 / 10000 ≤ calculate_buy_price 2000 10000 10000 true ∧
    (10000 - 2000) * 10000 / 10000 ≤ calculate_buy_price 2000 10000 10000 false :=
  @buy_price_C9 2000 10000 10000 (by decide) (by decide) (by decide)
    (by decide) (by decide) (by decide)

/-- Success equation of `get_price` on the yes side under explicit
bounds. -/
theorem getPrice_yes_eq {p : LiquidityPool} (hy : 0 < p.yes_reserves)
    (hn : 0 < p.no_reserves) (hsum : p.yes_reserves + p.no_reserves < U64)
    (hby : p.yes_reserves * 10000 < U64) :
    p.getPrice true = .ok (p.yes_reserves * 10000 /
      (p.yes_reserves + p.no_reserves)) := by
  unfold LiquidityPool.getPrice
  rw [if_neg (not_not_intro ⟨hy, hn⟩), if_neg (not_le.mpr hsum), if_pos rfl,
    if_neg (not_le.mpr hby)]

/-- C10: every successful `add_liquidity` — not only the first — credits
exactly `amount / 2` to each reserve regardless of the reserve ratio, an
odd deposit loses one unit to dust on every deposit, and a deposit into
an imbalanced pool (`yes ≤ no`) moves the yes price toward 5000 without
overshooting it. -/
theorem add_liquidity_split_C10 {p p' : LiquidityPool} {amount out : Nat}
    (h : p.addLiquidity amount = (.ok out, p')) :
    p'.yes_reserves = p.yes_reserves + amount / 2 ∧
    p'.no_reserves = p.no_reserves + amount / 2 ∧
    (amount % 2 = 1 →
      p'.yes_reserves + p'.no_reserves + 1 =
        p.yes_reserves + p.no_reserves + amount) ∧
    (0 < p.yes_reserves → p.yes_reserves ≤ p.no_reserves →
      (p.no_reserves + amount / 2) * 10000 < U64 →
      ∃ a b, p.getPrice true = .ok a ∧ p'.getPrice true = .ok b ∧
        a ≤ b ∧ b ≤ 5000) := by
  obtain ⟨hact, hamt, hp', hout, hby, hbn, hbt⟩ := addLiquidity_ok h
  have hyes : p'.yes_reserves = p.yes_reserves + amount / 2 := by rw [hp']
  have hno : p'.no_reserves = p.no_reserves + amount / 2 := by rw [hp']
  refine ⟨hyes, hno, by omega, ?_⟩
  intro hyy hyn hbound
  have hU : U64 = 18446744073709551616 := by norm_num [U64]
  have hnn : 0 < p.no_reserves := lt_of_lt_of_le hyy hyn
  have hyb : p.yes_reserves * 10000 < U64 := by
    have hle : p.yes_reserves * 10000 ≤ (p.no_reserves + amount / 2) * 10000 :=
      Nat.mul_le_mul_right _ (by omega)
    omega
  have hs1 : p.yes_reserves + p.no_reserves < U64 := by omega
  have hyb' : p'.yes_reserves * 10000 < U64 := by
    rw [hyes]
    have hle : (p.yes_reserves + amount / 2) * 10000 ≤
        (p.no_reserves + amount / 2) * 10000 :=
      Nat.mul_le_mul_right _ (by omega)
    omega
  have hs2 : p'.yes_reserves + p'.no_reserves < U64 := by
    rw [hyes, hno]; omega
  have hyy' : 0 < p'.yes_reserves := by rw [hyes]; omega
  have hnn' : 0 < p'.no_reserves := by rw [hno]; omega
  refine ⟨_, _, getPrice_yes_eq hyy hnn hs1 hyb,
    getPrice_yes_eq hyy' hnn' hs2 hyb', ?_, ?_⟩
  · rw [hyes, hno]
    apply div_le_div_cross (by omega) (by omega)
    have key : 2 * (p.yes_reserves * (amount / 2)) ≤
        (p.yes_reserves + p.no_reserves) * (amount / 2) := by
      have h2y : 2 * p.yes_reserves ≤ p.yes_reserves + p.no_reserves := by omega
      calc 2 * (p.yes_reserves * (amount / 2))
          = (2 * p.yes_reserves) * (amount / 2) := by ring
      _ ≤ (p.yes_reserves + p.no_reserves) * (amount / 2) :=
          Nat.mul_le_mul_right _ h2y
    nlinarith [key]
  · rw [hyes, hno]
    have h5 : (p.yes_reserves + amount / 2) * 10000 ≤
        5000 * ((p.yes_reserves + amount / 2) + (p.no_reserves + amount / 2)) := by
      omega
    have h6 : (p.yes_reserves + amount / 2) * 10000 /
        ((p.yes_reserves + amount / 2) + (p.no_reserves + amount / 2)) ≤
        5000 * ((p.yes_reserves + amount / 2) + (p.no_reserves + amount / 2)) /
        ((p.yes_reserves + amount / 2) + (p.no_reserves + amount / 2)) :=
      Nat.div_le_div_right h5
    rwa [Nat.mul_div_cancel 5000 (show 0 < p.yes_reserves + amount / 2 +
      (p.no_reserves + amount / 2) by omega)] at h6

/-- Witness instantiating the C10 theorem on an imbalanced pool with
reserves `(10, 30)` and a deposit of 10: both reserves gain 5 and the
yes price moves from 2500 to 3000. -/
theorem add_liquidity_split_C10_witness :
    (poolSkew.addLiquidity 10).2.yes_reserves = poolSkew.yes_reserves + 10 / 2 ∧
    (poolSkew.addLiquidity 10).2.no_reserves = poolSkew.no_reserves + 10 / 2 ∧
    (10 % 2 = 1 →
      (poolSkew.addLiquidity 10).2.yes_reserves +
        (poolSkew.addLiquidity 10).2.no_reserves + 1 =
        poolSkew.yes_reserves + poolSkew.no_reserves + 10) ∧
    (0 < poolSkew.yes_reserves → poolSkew.yes_reserves ≤ poolSkew.no_reserves →
      (poolSkew.no_reserves + 10 / 2) * 10000 < U64 →
      ∃ a b, poolSkew.getPrice true = .ok a ∧
        (poolSkew.addLiquidity 10).2.getPrice true = .ok b ∧
        a ≤ b ∧ b ≤ 5000) :=
  @add_liquidity_split_C10 poolSkew (poolSkew.addLiquidity 10).2 10 25 rfl

end Zentro
